import Mathlib

/-!
Verification of the Fission task-management repository: the AI breakdown
approval workflow, the agent orchestration loop, the hybrid-retrieval
Reciprocal Rank Fusion, the skill-matching tool, and two frontend
components (the simulated pipeline modal and the subtask-selection toggle).

Frontend definitions are shallow embeddings of the TypeScript source under
`src/frontend`.  The backend AI core (BreakdownWorkflow, AgentOrchestrator,
HybridRetriever, ToolRegistry) is not present in the repository snapshot —
only its README, the TypeScript types and the HTTP callers are — so those
definitions are modelled from the specification, as marked in their doc
comments.
-/

namespace Fission

/-! ### Frontend: AIAgentModal.runPipeline (src/frontend/src/components/AIAgentModal.tsx) -/

/-- A pipeline step of the simulated AI pipeline, from `pipelineSteps` in
`AIAgentModal.tsx`: `{ id, name, duration }`. -/
structure PipelineStep where
  id : Nat
  name : String
  duration : Nat
deriving DecidableEq

/-- The literal `pipelineSteps` array from `AIAgentModal.tsx`. -/
def pipelineSteps : List PipelineStep :=
  [⟨1, "Context Collector", 600⟩,
   ⟨2, "Problem Analyzer", 800⟩,
   ⟨3, "Query Engineer (Vector questions)", 900⟩,
   ⟨4, "Vector Search (History/Docs)", 1000⟩,
   ⟨5, "Task Classifier", 700⟩,
   ⟨6, "Department Router", 600⟩,
   ⟨7, "Assignee Selector", 800⟩,
   ⟨8, "Task Writer (Finalizing)", 900⟩]

/-- Observable events of `runPipeline`: `setCurrentStep(i)`, the append of
`i` to `completedSteps`, and the final `onComplete()` call. -/
inductive PipelineEvent
  | setCurrentStep (i : Nat)
  | completeStep (i : Nat)
  | invokeComplete
deriving DecidableEq

/-- The body of `executeStep` in `runPipeline`: while `stepIndex <
steps.length` it sets the current step, completes it after the timeout and
recurses with `stepIndex + 1`; otherwise it invokes `onComplete`.  The
remaining-steps list stands for the `stepIndex < pipelineSteps.length`
check (`remaining = steps.drop stepIndex`), so the recursion is structural;
JavaScript timers fire one at a time, so the run is the sequential trace. -/
def executeSteps : List PipelineStep → Nat → List PipelineEvent
  | [], _ => [PipelineEvent.invokeComplete]
  | _ :: rest, stepIndex =>
    PipelineEvent.setCurrentStep stepIndex ::
      PipelineEvent.completeStep stepIndex :: executeSteps rest (stepIndex + 1)

/-- The function `runPipeline` from `AIAgentModal.tsx`: starts
`executeStep` at `stepIndex = 0`. -/
def runPipeline (steps : List PipelineStep) : List PipelineEvent :=
  executeSteps steps 0

/-- The successive values appended to `completedSteps` along a trace. -/
def completedStepsOf (trace : List PipelineEvent) : List Nat :=
  trace.filterMap fun e =>
    match e with
    | PipelineEvent.completeStep i => some i
    | _ => none

/-- The successive values assigned to `currentStep` along a trace. -/
def currentStepsOf (trace : List PipelineEvent) : List Nat :=
  trace.filterMap fun e =>
    match e with
    | PipelineEvent.setCurrentStep i => some i
    | _ => none

/-! ### Frontend: subtask-selection toggle (src/frontend/src/components/ai/TaskBreakdownView.tsx)

`onToggleSelection` in `AIAssistantModal`:
`prev.includes(index) ? prev.filter(i => i !== index) : [...prev, index]`. -/

/-- The selection toggle passed to `TaskBreakdownView` by
`AIAssistantModal`. -/
def toggleSelection (prev : List Nat) (index : Nat) : List Nat :=
  if index ∈ prev then prev.filter (fun i => i != index) else prev ++ [index]

/-! ### BreakdownWorkflow: the approval state machine

Modelled from the spec: the backend `BreakdownWorkflow` / `apply-breakdown`
implementation is not in the repository snapshot (only the README, the
TypeScript types `TaskBreakdownResponse` / `ApplyBreakdownRequest` /
`ApplyBreakdownResponse` and the `aiService` HTTP callers are). -/

/-- Modelled from the spec: status of an `AnalysisRecord`, the three-state
machine `pending → approved | rejected`. -/
inductive Status
  | pending
  | approved
  | rejected
deriving DecidableEq

/-- Modelled from the spec: a `SubtaskSuggestion` as produced by the
orchestrator (fields beyond those the workflow inspects are kept as plain
data). -/
structure Subtask where
  title : String
  description : String
  assignedToUserId : Option Nat
  priority : String
deriving DecidableEq

/-- Modelled from the spec: the reasons an orchestrator run ends in the
FAILED state. -/
inductive FailReason
  | parseError
  | timeoutError
  | maxIterationsExceeded
  | invalidOutputSchema
deriving DecidableEq

/-- Modelled from the spec: the warning text recorded when the orchestrator
fails, one descriptive entry per failure reason. -/
def failureWarning : FailReason → String
  | FailReason.parseError => "breakdown failed: parse_error"
  | FailReason.timeoutError => "breakdown failed: timeout"
  | FailReason.maxIterationsExceeded => "breakdown failed: max_iterations_exceeded"
  | FailReason.invalidOutputSchema => "breakdown failed: invalid_output_schema"

/-- Modelled from the spec: the outcome of an orchestrator run consumed by
`BreakdownWorkflow.create` — either a final structured breakdown or a
failure reason. -/
inductive OrchOutcome
  | done (subtasks : List Subtask) (overallStrategy : String) (warnings : List String)
  | failed (reason : FailReason)
deriving DecidableEq

/-- Modelled from the spec: the persisted `AnalysisRecord` (the
`ai_analysis_history` row of the README's schema). -/
structure AnalysisRecord where
  id : Nat
  roomId : Nat
  problemDescription : String
  language : String
  subtasks : List Subtask
  overallStrategy : String
  warnings : List String
  status : Status
  createdTaskIds : List Nat
  appliedAt : Option Nat
deriving DecidableEq

/-- Modelled from the spec: the external task store, which issues
sequential task ids and records each task-creation request in the order it
was received. -/
structure TaskStore where
  nextId : Nat
  created : List (Nat × Subtask)
deriving DecidableEq

/-- Modelled from the spec: one task-creation request per selected subtask,
issued in subtask order; the resulting ids are collected in that order. -/
def createTasks : TaskStore → List Subtask → List Nat × TaskStore
  | ts, [] => ([], ts)
  | ts, s :: rest =>
    let tid := ts.nextId
    let ts' : TaskStore := ⟨ts.nextId + 1, ts.created ++ [(tid, s)]⟩
    let r := createTasks ts' rest
    (tid :: r.1, r.2)

/-- Modelled from the spec: the error taxonomy of `apply`. -/
inductive ApplyError
  | notFoundError
  | alreadyAppliedError
  | indexError
deriving DecidableEq

/-- Modelled from the spec: `apply` on a single record.  Fails with
`alreadyAppliedError` when status ≠ pending; selects all subtasks when
`sel` is omitted; fails with `indexError` when any selected index is out of
`[0, len(subtasks))`, before any task-creation request is issued; otherwise
creates one task per selected subtask in index order, transitions the
record to approved and stamps `appliedAt` and `createdTaskIds`. -/
def applyRecord (r : AnalysisRecord) (sel : Option (List Nat)) (now : Nat)
    (ts : TaskStore) : Except ApplyError (List Nat × AnalysisRecord × TaskStore) :=
  if r.status ≠ Status.pending then Except.error ApplyError.alreadyAppliedError
  else
    let indices := sel.getD (List.range r.subtasks.length)
    if _h : ∀ i ∈ indices, i < r.subtasks.length then
      let chosen := indices.filterMap (fun i => r.subtasks[i]?)
      let res := createTasks ts chosen
      Except.ok (res.1,
        { r with status := Status.approved, appliedAt := some now, createdTaskIds := res.1 },
        res.2)
    else Except.error ApplyError.indexError

/-- Modelled from the spec: the whole workflow state — the persisted
records, the external task store and the id assigned to the next created
analysis. -/
structure WfState where
  records : List AnalysisRecord
  tasks : TaskStore
  nextAnalysisId : Nat
deriving DecidableEq

/-- Modelled from the spec: lookup of an analysis by id in the store. -/
def findRecord (records : List AnalysisRecord) (analysisId : Nat) :
    Option AnalysisRecord :=
  records.find? (fun r => r.id == analysisId)

/-- Modelled from the spec: `BreakdownWorkflow.apply` at the store level.
Unknown ids fail with `notFoundError`; any failure leaves the whole state
untouched (all-or-nothing); success persists the approved record and the
newly created tasks. -/
def applyWf (s : WfState) (analysisId : Nat) (sel : Option (List Nat))
    (now : Nat) : Except ApplyError (List Nat) × WfState :=
  match findRecord s.records analysisId with
  | none => (Except.error ApplyError.notFoundError, s)
  | some r =>
    match applyRecord r sel now s.tasks with
    | Except.error e => (Except.error e, s)
    | Except.ok res =>
      (Except.ok res.1,
        { s with
          records := s.records.map (fun q => if q.id = analysisId then res.2.1 else q),
          tasks := res.2.2 })

/-- Modelled from the spec: the record built by `BreakdownWorkflow.create`
from the orchestrator outcome — on `done` it embeds the breakdown, on
`failed` it has empty subtasks and one descriptive warning; the status is
always pending. -/
def recordOf (nextAnalysisId : Nat) (orch : OrchOutcome) (roomId : Nat)
    (desc lang : String) : AnalysisRecord :=
  match orch with
  | OrchOutcome.done subs strat warns =>
    ⟨nextAnalysisId, roomId, desc, lang, subs, strat, warns, Status.pending, [], none⟩
  | OrchOutcome.failed reason =>
    ⟨nextAnalysisId, roomId, desc, lang, [], "", [failureWarning reason],
      Status.pending, [], none⟩

/-- Modelled from the spec: `BreakdownWorkflow.create` — always persists
and returns a pending record, whatever the orchestrator outcome was. -/
def createWf (s : WfState) (orch : OrchOutcome) (roomId : Nat)
    (desc lang : String) : AnalysisRecord × WfState :=
  let newRec := recordOf s.nextAnalysisId orch roomId desc lang
  (newRec,
    { s with records := s.records ++ [newRec],
             nextAnalysisId := s.nextAnalysisId + 1 })

/-- Modelled from the spec: the explicit reject action — a pending record
with the given id transitions to rejected; nothing else changes. -/
def rejectWf (s : WfState) (analysisId : Nat) : WfState :=
  { s with records := s.records.map (fun r =>
      if r.id = analysisId ∧ r.status = Status.pending then
        { r with status := Status.rejected }
      else r) }

/-- The empty initial workflow state. -/
def initialState : WfState := ⟨[], ⟨0, []⟩, 0⟩

/-- States reachable from the empty store under the workflow operations
`create`, `apply` and `reject`. -/
inductive Reachable : WfState → Prop
  | init : Reachable initialState
  | createStep (s : WfState) (orch : OrchOutcome) (roomId : Nat) (desc lang : String) :
      Reachable s → Reachable (createWf s orch roomId desc lang).2
  | applyStep (s : WfState) (analysisId : Nat) (sel : Option (List Nat)) (now : Nat) :
      Reachable s → Reachable (applyWf s analysisId sel now).2
  | rejectStep (s : WfState) (analysisId : Nat) :
      Reachable s → Reachable (rejectWf s analysisId)

/-! ### AgentOrchestrator: the bounded REASONING ↔ TOOL_CALL loop

Modelled from the spec: the LangGraph `StateGraph` driving the agent is
described only in the README (`workflow.add_conditional_edges("agent",
should_continue, ...)`); its implementation is not in the snapshot. -/

/-- Modelled from the spec: what the LLM answers at one REASONING step —
either a set of tool-call requests or the final structured breakdown. -/
inductive LLMResponse
  | toolCalls (calls : List String)
  | finalAnswer (subtasks : List Subtask) (overallStrategy : String)

/-- Modelled from the spec: the terminal states of the orchestrator. -/
inductive OrchResult
  | done (subtasks : List Subtask) (overallStrategy : String)
  | failed (reason : FailReason)
deriving DecidableEq

/-- Modelled from the spec: the default maximum iteration count of the
orchestrator loop. -/
def defaultMaxIterations : Nat := 8

/-- Modelled from the spec: the REASONING ↔ TOOL_CALL loop.  `script t` is
the LLM's answer at cycle `t` (the conversation grows deterministically
from the tool results, so the cycle number determines the answer); `fuel`
is the number of cycles still allowed and `used` the number already spent.
Exhausting the bound yields `failed maxIterationsExceeded`; a final answer
yields `done`.  The pair returned is the result and the number of
REASONING cycles consumed. -/
def orchLoop (script : Nat → LLMResponse) : Nat → Nat → OrchResult × Nat
  | 0, used => (OrchResult.failed FailReason.maxIterationsExceeded, used)
  | fuel + 1, used =>
    match script used with
    | LLMResponse.finalAnswer subs strat => (OrchResult.done subs strat, used + 1)
    | LLMResponse.toolCalls _ => orchLoop script fuel (used + 1)

/-- Modelled from the spec: a whole orchestrator run with the configured
maximum iteration count. -/
def runOrchestrator (maxIterations : Nat) (script : Nat → LLMResponse) :
    OrchResult × Nat :=
  orchLoop script maxIterations 0

/-- A script on which the LLM keeps requesting tools forever; drives the
loop into the iteration bound. -/
def constToolScript : Nat → LLMResponse :=
  fun _ => LLMResponse.toolCalls []

/-! ### HybridRetriever: Reciprocal Rank Fusion

Modelled from the spec: the retrieval microservice (`POST
/api/rag/search`, `search_type: "hybrid"`) is described only by the RAG
README embedded in `src/frontend/src/app/page.tsx`; its implementation is
not in the snapshot.  Scores are exact rationals. -/

/-- Modelled from the spec: the RRF constant `k`, default 60. -/
def rrfK : Nat := 60

/-- Modelled from the spec: 0-based rank of a document in one ranked
channel list, `none` when absent. -/
def rankOf : List Nat → Nat → Option Nat
  | [], _ => none
  | x :: xs, d => if x = d then some 0 else (rankOf xs d).map (· + 1)

/-- Modelled from the spec: the reciprocal-rank contribution of one
channel, `1 / (k + rank)` with 1-based rank, and 0 for a document absent
from the list. -/
def channelScore (k : Nat) (ranked : List Nat) (d : Nat) : ℚ :=
  match rankOf ranked d with
  | some i => 1 / ((k : ℚ) + (i + 1 : Nat))
  | none => 0

/-- Modelled from the spec: the fused RRF score — each channel's
contribution scaled by its weight, then summed. -/
def fusedScore (k : Nat) (denseWeight sparseWeight : ℚ)
    (dense sparse : List Nat) (d : Nat) : ℚ :=
  denseWeight * channelScore k dense d + sparseWeight * channelScore k sparse d

/-- Modelled from the spec: the result order of hybrid search — fused
score descending, ties broken by document id ascending. -/
def hybridPrec (k : Nat) (dw sw : ℚ) (dense sparse : List Nat)
    (d1 d2 : Nat) : Prop :=
  fusedScore k dw sw dense sparse d2 < fusedScore k dw sw dense sparse d1 ∨
    (fusedScore k dw sw dense sparse d1 = fusedScore k dw sw dense sparse d2 ∧
      d1 ≤ d2)

instance (k : Nat) (dw sw : ℚ) (dense sparse : List Nat) :
    DecidableRel (hybridPrec k dw sw dense sparse) := fun d1 d2 => by
  unfold hybridPrec
  infer_instance

instance (k : Nat) (dw sw : ℚ) (dense sparse : List Nat) :
    IsTotal Nat (hybridPrec k dw sw dense sparse) := by
  constructor
  intro a b
  rcases lt_trichotomy (fusedScore k dw sw dense sparse a)
      (fusedScore k dw sw dense sparse b) with h | h | h
  · exact Or.inr (Or.inl h)
  · rcases Nat.le_total a b with hab | hab
    · exact Or.inl (Or.inr ⟨h, hab⟩)
    · exact Or.inr (Or.inr ⟨h.symm, hab⟩)
  · exact Or.inl (Or.inl h)

instance (k : Nat) (dw sw : ℚ) (dense sparse : List Nat) :
    IsTrans Nat (hybridPrec k dw sw dense sparse) := by
  constructor
  intro a b c hab hbc
  rcases hab with hab | ⟨hab, hab'⟩
  · rcases hbc with hbc | ⟨hbc, _⟩
    · exact Or.inl (lt_trans hbc hab)
    · exact Or.inl (hbc ▸ hab)
  · rcases hbc with hbc | ⟨hbc, hbc'⟩
    · exact Or.inl (hab ▸ hbc)
    · exact Or.inr ⟨hab.trans hbc, hab'.trans hbc'⟩

/-- Modelled from the spec: the candidate documents of a hybrid search —
every document appearing in either channel list, without duplicates. -/
def hybridCandidates (dense sparse : List Nat) : List Nat :=
  (dense ++ sparse).dedup

/-- Modelled from the spec: hybrid search — the candidates sorted by fused
score descending (ties by document id ascending), truncated to `top_k`. -/
def hybridSearch (k : Nat) (dw sw : ℚ) (dense sparse : List Nat)
    (topK : Nat) : List Nat :=
  (List.insertionSort (hybridPrec k dw sw dense sparse)
    (hybridCandidates dense sparse)).take topK

/-! ### ToolRegistry: find_employees_by_skills

Modelled from the spec: `find_employees_by_skills_tool` is named only in
the README; the backend implementation is not in the snapshot. -/

/-- Modelled from the spec: a room member as seen by the skill-matching
tool — id, username and the skill set recorded in the resume analysis. -/
structure Candidate where
  userId : Nat
  username : String
  skills : List String
deriving DecidableEq

/-- Modelled from the spec: one entry of the tool's result:
`{user_id, username, match_score (0–100), matched_skills}`. -/
structure SkillMatch where
  userId : Nat
  username : String
  matchScore : ℚ
  matchedSkills : List String
deriving DecidableEq

/-- Modelled from the spec: the requested skills present in the
candidate's recorded skill set. -/
def matchedSkillsFor (requested : List String) (c : Candidate) : List String :=
  requested.filter (fun s => c.skills.contains s)

/-- Modelled from the spec: `match_score` — the fraction of requested
skills present in the candidate's skill set, scaled to 0–100; 0 when the
request is empty. -/
def matchScoreFor (requested : List String) (c : Candidate) : ℚ :=
  if requested.isEmpty then 0
  else 100 * ((matchedSkillsFor requested c).length : ℚ) / (requested.length : ℚ)

/-- Modelled from the spec: the result order — match score descending,
ties broken by username ascending. -/
def skillPrec (a b : SkillMatch) : Prop :=
  b.matchScore < a.matchScore ∨
    (a.matchScore = b.matchScore ∧ a.username ≤ b.username)

instance : DecidableRel skillPrec := fun a b => by
  unfold skillPrec
  infer_instance

instance : IsTotal SkillMatch skillPrec := by
  constructor
  intro a b
  rcases lt_trichotomy a.matchScore b.matchScore with h | h | h
  · exact Or.inr (Or.inl h)
  · rcases le_total a.username b.username with hab | hab
    · exact Or.inl (Or.inr ⟨h, hab⟩)
    · exact Or.inr (Or.inr ⟨h.symm, hab⟩)
  · exact Or.inl (Or.inl h)

instance : IsTrans SkillMatch skillPrec := by
  constructor
  intro a b c hab hbc
  rcases hab with hab | ⟨hab, hab'⟩
  · rcases hbc with hbc | ⟨hbc, _⟩
    · exact Or.inl (lt_trans hbc hab)
    · exact Or.inl (hbc ▸ hab)
  · rcases hbc with hbc | ⟨hbc, hbc'⟩
    · exact Or.inl (hab ▸ hbc)
    · exact Or.inr ⟨hab.trans hbc, hab'.trans hbc'⟩

/-- Modelled from the spec: the scored result row for one candidate. -/
def scoreCandidate (requested : List String) (c : Candidate) : SkillMatch :=
  ⟨c.userId, c.username, matchScoreFor requested c, matchedSkillsFor requested c⟩

/-- Modelled from the spec: `find_employees_by_skills` — every candidate of
the pool scored, sorted by match score descending with ties broken by
username ascending. -/
def findEmployeesBySkills (requested : List String) (pool : List Candidate) :
    List SkillMatch :=
  List.insertionSort skillPrec (pool.map (scoreCandidate requested))

/-! ### Concrete sample data used to instantiate the theorems -/

/-- A three-subtask breakdown, as in the README's example response. -/
def sampleSubtasks : List Subtask :=
  [⟨"Optimize SQL queries", "use joinedload for relations", some 5, "high"⟩,
   ⟨"Introduce Redis cache", "cache frequent reports", some 7, "medium"⟩,
   ⟨"Load test the fix", "replay peak traffic", none, "low"⟩]

/-- A pending analysis record with the three sample subtasks. -/
def samplePendingRecord : AnalysisRecord :=
  ⟨0, 1, "DB is slow", "en", sampleSubtasks, "split into db and cache work",
    [], Status.pending, [], none⟩

/-- An already-approved analysis record. -/
def sampleApprovedRecord : AnalysisRecord :=
  ⟨1, 1, "Improve caching", "en", sampleSubtasks, "cache more",
    [], Status.approved, [10], some 99⟩

/-- A store holding the pending and the approved sample records. -/
def sampleState : WfState :=
  ⟨[samplePendingRecord, sampleApprovedRecord], ⟨11, []⟩, 2⟩

/-- A sample problem description. -/
def cexDesc : String := "DB is slow"

/-- The english language tag. -/
def enLang : String := "en"

/-- The state after one `create` whose orchestrator run failed: one pending
record with empty subtasks. -/
def cexState1 : WfState :=
  (createWf initialState (OrchOutcome.failed FailReason.parseError) 1 cexDesc enLang).2

/-- The record persisted in `cexState1`. -/
def cexPendingRecord : AnalysisRecord :=
  ⟨0, 1, cexDesc, enLang, [], "", [failureWarning FailReason.parseError],
    Status.pending, [], none⟩

/-- The state after additionally applying that record with the explicit
empty selection: the record becomes approved with no created tasks. -/
def cexState2 : WfState := (applyWf cexState1 0 (some []) 7).2

/-- The approved record of `cexState2`: status approved yet
`createdTaskIds = []`. -/
def cexApprovedRecord : AnalysisRecord :=
  ⟨0, 1, cexDesc, enLang, [], "", [failureWarning FailReason.parseError],
    Status.approved, [], some 7⟩

/-- A sample room member for the skill-matching tool. -/
def sampleCandidate : Candidate := ⟨5, "ivan", ["SQL", "Python"]⟩

/-! ## Theorems -/

/-- C9: in the simulated AI pipeline of `AIAgentModal`, `runPipeline`
executes the eight steps strictly sequentially in array order: the indices
appended to `completedSteps` are exactly `0..7` in order (each exactly
once, each only after the previous one completed), `currentStep` takes the
values `0..7` in increasing order, and `onComplete` is invoked exactly
once, after all eight steps completed — the full trace interleaves
`setCurrentStep i` and `completeStep i` for `i = 0..7` and ends with the
single `invokeComplete`. -/
theorem c9_runPipeline_sequential :
    completedStepsOf (runPipeline pipelineSteps) = List.range 8 ∧
    currentStepsOf (runPipeline pipelineSteps) = List.range 8 ∧
    (runPipeline pipelineSteps).count PipelineEvent.invokeComplete = 1 ∧
    runPipeline pipelineSteps =
      [PipelineEvent.setCurrentStep 0, PipelineEvent.completeStep 0,
       PipelineEvent.setCurrentStep 1, PipelineEvent.completeStep 1,
       PipelineEvent.setCurrentStep 2, PipelineEvent.completeStep 2,
       PipelineEvent.setCurrentStep 3, PipelineEvent.completeStep 3,
       PipelineEvent.setCurrentStep 4, PipelineEvent.completeStep 4,
       PipelineEvent.setCurrentStep 5, PipelineEvent.completeStep 5,
       PipelineEvent.setCurrentStep 6, PipelineEvent.completeStep 6,
       PipelineEvent.setCurrentStep 7, PipelineEvent.completeStep 7,
       PipelineEvent.invokeComplete] := by
  refine ⟨?_, ?_, ?_, ?_⟩ <;> decide

/-- C10: the subtask-selection toggle of `AIAssistantModal` is an
involution on duplicate-free selections: it removes a present index,
appends an absent one, toggling twice restores the selection as a set, and
it never introduces duplicate indices. -/
theorem c10_toggle_involution (prev : List Nat) (index : Nat)
    (hnd : prev.Nodup) :
    (index ∈ prev → toggleSelection prev index = prev.filter (fun i => i != index)
      ∧ index ∉ toggleSelection prev index) ∧
    (index ∉ prev → toggleSelection prev index = prev ++ [index]
      ∧ index ∈ toggleSelection prev index) ∧
    (∀ j, j ∈ toggleSelection (toggleSelection prev index) index ↔ j ∈ prev) ∧
    (toggleSelection prev index).Nodup := by
  by_cases hmem : index ∈ prev
  · have ht1 : toggleSelection prev index = prev.filter (fun i => i != index) := by
      simp [toggleSelection, hmem]
    have hnotin : index ∉ toggleSelection prev index := by
      rw [ht1]
      simp
    refine ⟨fun _ => ⟨ht1, hnotin⟩, fun hc => absurd hmem hc, ?_, ?_⟩
    · intro j
      have ht2 : toggleSelection (toggleSelection prev index) index =
          toggleSelection prev index ++ [index] := if_neg hnotin
      rw [ht2, ht1]
      simp only [List.mem_append, List.mem_filter, List.mem_singleton, bne_iff_ne,
        ne_eq, decide_eq_true_eq]
      constructor
      · rintro (⟨hj, _⟩ | rfl)
        · exact hj
        · exact hmem
      · intro hj
        by_cases hji : j = index
        · exact Or.inr hji
        · exact Or.inl ⟨hj, hji⟩
    · rw [ht1]
      exact hnd.filter _
  · have ht1 : toggleSelection prev index = prev ++ [index] := by
      simp [toggleSelection, hmem]
    have hin : index ∈ toggleSelection prev index := by
      rw [ht1]
      simp
    refine ⟨fun hc => absurd hc hmem, fun _ => ⟨ht1, hin⟩, ?_, ?_⟩
    · intro j
      have ht2 : toggleSelection (toggleSelection prev index) index =
          (toggleSelection prev index).filter (fun i => i != index) := if_pos hin
      have hfp : prev.filter (fun i => i != index) = prev := by
        refine List.filter_eq_self.mpr ?_
        intro a ha
        simp only [bne_iff_ne, ne_eq, decide_eq_true_eq]
        intro haeq
        exact hmem (haeq ▸ ha)
      rw [ht2, ht1, List.filter_append, hfp]
      simp
    · rw [ht1]
      simp only [List.nodup_append, List.nodup_cons, List.not_mem_nil,
        not_false_eq_true, List.nodup_nil, and_true, true_and]
      refine ⟨hnd, ?_⟩
      intro a ha hb
      simp only [List.mem_singleton] at hb
      exact hmem (hb ▸ ha)

/-- Witness for C10 at the concrete selection `[0, 2]` and index `1`. -/
theorem c10_toggle_involution_witness :
    1 ∈ toggleSelection [0, 2] 1 ∧ (toggleSelection [0, 2] 1).Nodup := by
  have h := c10_toggle_involution [0, 2] 1 (by decide)
  exact ⟨(h.2.1 (by decide)).2, h.2.2.2⟩

/-- Reading every position of a list in order yields the list itself. -/
theorem filterMap_getElem_range {α : Type} (l : List α) :
    (List.range l.length).filterMap (fun i => l[i]?) = l := by
  induction l with
  | nil => rfl
  | cons a l ih =>
    rw [List.length_cons, List.range_succ_eq_map, List.filterMap_cons]
    simp only [List.getElem?_cons_zero, List.filterMap_map]
    rw [show ((fun i => (a :: l)[i]?) ∘ Nat.succ) = fun i => l[i]? from
      funext fun i => List.getElem?_cons_succ]
    rw [ih]

/-- The helper `createTasks` issues sequential ids starting at `nextId` and appends
one creation per subtask, in subtask order. -/
theorem createTasks_eq (subs : List Subtask) (ts : TaskStore) :
    createTasks ts subs =
      (List.range' ts.nextId subs.length,
        ⟨ts.nextId + subs.length,
          ts.created ++ List.zip (List.range' ts.nextId subs.length) subs⟩) := by
  induction subs generalizing ts with
  | nil => simp [createTasks]
  | cons s rest ih =>
    simp only [createTasks, ih, List.length_cons, List.range'_succ, List.zip_cons_cons]
    refine Prod.ext rfl ?_
    simp only [TaskStore.mk.injEq]
    exact ⟨by omega, by simp⟩

/-- C8: `apply` with omitted `selected_subtask_indices` on a pending record
selects all subtasks: one task-creation request per subtask is issued to
the task store in subtask (index) order, the resulting ids are collected in
that order (`createdTaskIds[j]` is the id created for the `j`-th subtask,
as the `zip` in the final task store shows), and the record is approved
with those ids. -/
theorem c8_apply_omitted_selects_all (r : AnalysisRecord) (now : Nat)
    (ts : TaskStore) (hp : r.status = Status.pending) :
    applyRecord r none now ts =
      Except.ok (List.range' ts.nextId r.subtasks.length,
        { r with status := Status.approved, appliedAt := some now,
                 createdTaskIds := List.range' ts.nextId r.subtasks.length },
        ⟨ts.nextId + r.subtasks.length,
          ts.created ++ List.zip (List.range' ts.nextId r.subtasks.length) r.subtasks⟩) := by
  unfold applyRecord
  rw [if_neg (by simp [hp])]
  simp only [Option.getD_none]
  rw [dif_pos (fun i hi => List.mem_range.mp hi)]
  simp only [filterMap_getElem_range, createTasks_eq]

/-- Witness for C8: applying the sample pending record with omitted
indices creates tasks `11, 12, 13` for its three subtasks in order. -/
theorem c8_apply_omitted_selects_all_witness :
    applyRecord samplePendingRecord none 7 ⟨11, []⟩ =
      Except.ok (List.range' 11 samplePendingRecord.subtasks.length,
        { samplePendingRecord with
            status := Status.approved, appliedAt := some 7,
            createdTaskIds := List.range' 11 samplePendingRecord.subtasks.length },
        ⟨11 + samplePendingRecord.subtasks.length,
          [] ++ List.zip (List.range' 11 samplePendingRecord.subtasks.length)
            samplePendingRecord.subtasks⟩) :=
  c8_apply_omitted_selects_all samplePendingRecord 7 ⟨11, []⟩ rfl

/-- C1: `apply` on a pending record with a selected index outside
`[0, len(subtasks))` fails with `indexError` and is all-or-nothing: the
returned workflow state is exactly the input state, so no task-creation
request takes effect, the record's `createdTaskIds` is unchanged and its
status remains pending. -/
theorem c1_apply_index_error_all_or_nothing (s : WfState) (analysisId : Nat)
    (l : List Nat) (now : Nat) (r : AnalysisRecord)
    (hfind : findRecord s.records analysisId = some r)
    (hp : r.status = Status.pending)
    (hbad : ∃ i ∈ l, r.subtasks.length ≤ i) :
    applyWf s analysisId (some l) now = (Except.error ApplyError.indexError, s) := by
  have happ : applyRecord r (some l) now s.tasks = Except.error ApplyError.indexError := by
    unfold applyRecord
    rw [if_neg (by simp [hp])]
    simp only [Option.getD_some]
    rw [dif_neg]
    intro hall
    obtain ⟨i, hi, hle⟩ := hbad
    exact absurd (hall i hi) (Nat.not_lt.mpr hle)
  simp only [applyWf, hfind, happ]

/-- Witness for C1: selecting `[0, 5]` on the three-subtask sample record
fails with `indexError` and leaves the store untouched. -/
theorem c1_apply_index_error_all_or_nothing_witness :
    applyWf sampleState 0 (some [0, 5]) 7 =
      (Except.error ApplyError.indexError, sampleState) :=
  c1_apply_index_error_all_or_nothing sampleState 0 [0, 5] 7
    samplePendingRecord rfl rfl ⟨5, by decide, by decide⟩

/-- C2: `apply` on a record whose status is not pending (in particular an
already-approved one) fails with `alreadyAppliedError` and issues no
task-creation request — the returned workflow state, task store included,
is exactly the input state, so no duplicate tasks are ever created. -/
theorem c2_apply_already_applied_rejected (s : WfState) (analysisId : Nat)
    (sel : Option (List Nat)) (now : Nat) (r : AnalysisRecord)
    (hfind : findRecord s.records analysisId = some r)
    (hnp : r.status ≠ Status.pending) :
    applyWf s analysisId sel now =
      (Except.error ApplyError.alreadyAppliedError, s) := by
  have happ : applyRecord r sel now s.tasks =
      Except.error ApplyError.alreadyAppliedError := by
    unfold applyRecord
    rw [if_pos hnp]
  simp only [applyWf, hfind, happ]

/-- Witness for C2: re-applying the approved sample record fails with
`alreadyAppliedError` and changes nothing. -/
theorem c2_apply_already_applied_rejected_witness :
    applyWf sampleState 1 none 7 =
      (Except.error ApplyError.alreadyAppliedError, sampleState) :=
  c2_apply_already_applied_rejected sampleState 1 none 7
    sampleApprovedRecord rfl (by decide)

/-- C7: when the orchestrator ends in FAILED (parse error, timeout,
max-iterations, or schema failure), `create` still returns a persisted
`AnalysisRecord` with status pending, an empty subtask sequence and a
non-empty warnings list describing the failure; `createWf` is total, so
the caller always receives a record to inspect or retry. -/
theorem c7_create_on_failed_orchestrator (s : WfState) (reason : FailReason)
    (roomId : Nat) (desc lang : String) :
    (createWf s (OrchOutcome.failed reason) roomId desc lang).1.status = Status.pending ∧
    (createWf s (OrchOutcome.failed reason) roomId desc lang).1.subtasks = [] ∧
    (createWf s (OrchOutcome.failed reason) roomId desc lang).1.warnings =
      [failureWarning reason] ∧
    (createWf s (OrchOutcome.failed reason) roomId desc lang).1.warnings ≠ [] ∧
    (createWf s (OrchOutcome.failed reason) roomId desc lang).1 ∈
      (createWf s (OrchOutcome.failed reason) roomId desc lang).2.records := by
  refine ⟨rfl, rfl, rfl, by simp [createWf, recordOf], ?_⟩
  exact List.mem_append_right _ (List.mem_singleton_self _)

/-- Witness for C7: a timed-out orchestrator run on the empty store still
yields a persisted pending record with empty subtasks and a warning. -/
theorem c7_create_on_failed_orchestrator_witness :
    (createWf initialState (OrchOutcome.failed FailReason.timeoutError) 1
      cexDesc enLang).1.status = Status.pending ∧
    (createWf initialState (OrchOutcome.failed FailReason.timeoutError) 1
      cexDesc enLang).1.subtasks = [] ∧
    (createWf initialState (OrchOutcome.failed FailReason.timeoutError) 1
      cexDesc enLang).1.warnings = [failureWarning FailReason.timeoutError] ∧
    (createWf initialState (OrchOutcome.failed FailReason.timeoutError) 1
      cexDesc enLang).1.warnings ≠ [] ∧
    (createWf initialState (OrchOutcome.failed FailReason.timeoutError) 1
      cexDesc enLang).1 ∈
      (createWf initialState (OrchOutcome.failed FailReason.timeoutError) 1
        cexDesc enLang).2.records :=
  c7_create_on_failed_orchestrator initialState FailReason.timeoutError 1
    cexDesc enLang

/-- The loop uses at most `fuel` further cycles and ends either `done` or
`failed maxIterationsExceeded`. -/
theorem orchLoop_bounded (script : Nat → LLMResponse) :
    ∀ fuel used, (orchLoop script fuel used).2 ≤ used + fuel ∧
      ((∃ subs strat, (orchLoop script fuel used).1 = OrchResult.done subs strat) ∨
        (orchLoop script fuel used).1 =
          OrchResult.failed FailReason.maxIterationsExceeded)
  | 0, used => by
    exact ⟨Nat.le_add_right _ _, Or.inr rfl⟩
  | fuel + 1, used => by
    unfold orchLoop
    cases hs : script used with
    | finalAnswer subs strat =>
      dsimp only
      exact ⟨by omega, Or.inl ⟨subs, strat, rfl⟩⟩
    | toolCalls calls =>
      dsimp only
      have ih := orchLoop_bounded script fuel (used + 1)
      exact ⟨by omega, ih.2⟩

/-- A script that keeps requesting tools for the whole budget exhausts the
loop: the run ends `failed maxIterationsExceeded` after exactly the
remaining cycles. -/
theorem orchLoop_exhausts (script : Nat → LLMResponse) :
    ∀ fuel used,
      (∀ t, used ≤ t → t < used + fuel → ∃ c, script t = LLMResponse.toolCalls c) →
      orchLoop script fuel used =
        (OrchResult.failed FailReason.maxIterationsExceeded, used + fuel)
  | 0, used, _ => rfl
  | fuel + 1, used, h => by
    obtain ⟨c, hc⟩ := h used (Nat.le_refl _) (by omega)
    unfold orchLoop
    rw [hc]
    have ih := orchLoop_exhausts script fuel (used + 1)
      (fun t ht ht' => h t (by omega) (by omega))
    have harith : used + 1 + fuel = used + (fuel + 1) := by omega
    rw [ih, harith]

/-- C6: an orchestrator run never spends more than the configured maximum
iteration count (default 8) of REASONING↔TOOL_CALL cycles; every run ends
either `done` with the final breakdown or explicitly
`failed maxIterationsExceeded` (never a silent partial result), and a run
whose script would exceed the bound always ends
`failed maxIterationsExceeded` after exactly `maxIterations` cycles. -/
theorem c6_orchestrator_iteration_bound (maxIterations : Nat)
    (script : Nat → LLMResponse) :
    (runOrchestrator maxIterations script).2 ≤ maxIterations ∧
    ((∃ subs strat, (runOrchestrator maxIterations script).1 =
        OrchResult.done subs strat) ∨
      (runOrchestrator maxIterations script).1 =
        OrchResult.failed FailReason.maxIterationsExceeded) ∧
    ((∀ t, t < maxIterations → ∃ c, script t = LLMResponse.toolCalls c) →
      runOrchestrator maxIterations script =
        (OrchResult.failed FailReason.maxIterationsExceeded, maxIterations)) ∧
    defaultMaxIterations = 8 := by
  have hb := orchLoop_bounded script maxIterations 0
  refine ⟨by simpa using hb.1, hb.2, ?_, rfl⟩
  intro h
  have := orchLoop_exhausts script maxIterations 0
    (fun t _ ht' => h t (by omega))
  simpa using this

/-- Witness for C6: with the always-tool-calling script and the default
bound of 8, the run fails with `maxIterationsExceeded` after 8 cycles. -/
theorem c6_orchestrator_iteration_bound_witness :
    runOrchestrator 8 constToolScript =
      (OrchResult.failed FailReason.maxIterationsExceeded, 8) :=
  (c6_orchestrator_iteration_bound 8 constToolScript).2.2.1
    (fun _ _ => ⟨[], rfl⟩)

/-- The record `create` persists is always pending with no created tasks
and no `appliedAt`, whatever the orchestrator outcome. -/
theorem recordOf_fields (n : Nat) (orch : OrchOutcome) (roomId : Nat)
    (desc lang : String) :
    (recordOf n orch roomId desc lang).status = Status.pending ∧
    (recordOf n orch roomId desc lang).createdTaskIds = [] ∧
    (recordOf n orch roomId desc lang).appliedAt = none := by
  cases orch <;> exact ⟨rfl, rfl, rfl⟩

/-- Every record in the store after a `create` was already there or is the
newly persisted record. -/
theorem createWf_mem (s : WfState) (orch : OrchOutcome) (roomId : Nat)
    (desc lang : String) (r' : AnalysisRecord)
    (h : r' ∈ (createWf s orch roomId desc lang).2.records) :
    r' ∈ s.records ∨ r' = recordOf s.nextAnalysisId orch roomId desc lang := by
  unfold createWf at h
  rcases List.mem_append.mp h with h | h
  · exact Or.inl h
  · exact Or.inr (List.mem_singleton.mp h)

/-- A successful `applyRecord` presupposes a pending record and returns it
approved, stamped with `appliedAt` and the created ids. -/
theorem applyRecord_ok (r : AnalysisRecord) (sel : Option (List Nat))
    (now : Nat) (ts : TaskStore) (res : List Nat × AnalysisRecord × TaskStore)
    (h : applyRecord r sel now ts = Except.ok res) :
    r.status = Status.pending ∧
    res.2.1 = { r with status := Status.approved, appliedAt := some now,
                       createdTaskIds := res.1 } := by
  unfold applyRecord at h
  by_cases h1 : r.status ≠ Status.pending
  · rw [if_pos h1] at h
    cases h
  · rw [if_neg h1] at h
    push_neg at h1
    by_cases h2 : ∀ i ∈ sel.getD (List.range r.subtasks.length),
        i < r.subtasks.length
    · rw [dif_pos h2] at h
      injection h with h
      refine ⟨h1, ?_⟩
      rw [← h]
    · rw [dif_neg h2] at h
      cases h

/-- Every record in the store after an `apply` was already there, or is the
found pending record turned approved. -/
theorem applyWf_mem (s : WfState) (analysisId : Nat) (sel : Option (List Nat))
    (now : Nat) (r' : AnalysisRecord)
    (h : r' ∈ (applyWf s analysisId sel now).2.records) :
    r' ∈ s.records ∨
      ∃ r ids, r ∈ s.records ∧ r.id = r'.id ∧ r.status = Status.pending ∧
        r' = { r with status := Status.approved, appliedAt := some now,
                      createdTaskIds := ids } := by
  unfold applyWf at h
  cases hf : findRecord s.records analysisId with
  | none =>
    simp only [hf] at h
    exact Or.inl h
  | some r =>
    simp only [hf] at h
    cases ha : applyRecord r sel now s.tasks with
    | error e =>
      simp only [ha] at h
      exact Or.inl h
    | ok res =>
      simp only [ha] at h
      rcases List.mem_map.mp h with ⟨q, hq, hqeq⟩
      by_cases hid : q.id = analysisId
      · rw [if_pos hid] at hqeq
        have hok := applyRecord_ok r sel now s.tasks res ha
        have hr : r ∈ s.records := List.mem_of_find?_eq_some hf
        refine Or.inr ⟨r, res.1, hr, ?_, hok.1, ?_⟩
        · rw [← hqeq, hok.2]
        · rw [← hqeq, hok.2]
      · rw [if_neg hid] at hqeq
        exact Or.inl (hqeq ▸ hq)

/-- Every record in the store after a `reject` was already there, or is a
pending record turned rejected. -/
theorem rejectWf_mem (s : WfState) (analysisId : Nat) (r' : AnalysisRecord)
    (h : r' ∈ (rejectWf s analysisId).records) :
    r' ∈ s.records ∨
      ∃ q, q ∈ s.records ∧ q.id = r'.id ∧ q.status = Status.pending ∧
        r' = { q with status := Status.rejected } := by
  unfold rejectWf at h
  rcases List.mem_map.mp h with ⟨q, hq, hqeq⟩
  by_cases hc : q.id = analysisId ∧ q.status = Status.pending
  · rw [if_pos hc] at hqeq
    refine Or.inr ⟨q, hq, ?_, hc.2, hqeq.symm⟩
    rw [← hqeq]
  · rw [if_neg hc] at hqeq
    exact Or.inl (hqeq ▸ hq)

/-- The part of the C3 invariant that does hold on every reachable state:
non-empty `createdTaskIds` only on approved records, and `appliedAt` set
exactly on approved records. -/
theorem wf_invariant : ∀ (s : WfState), Reachable s → ∀ r ∈ s.records,
    (r.createdTaskIds ≠ [] → r.status = Status.approved) ∧
    (r.appliedAt ≠ none ↔ r.status = Status.approved) := by
  intro s hs
  induction hs with
  | init =>
    intro r hr
    simp [initialState] at hr
  | createStep s orch roomId desc lang _ ih =>
    intro r' hr'
    rcases createWf_mem s orch roomId desc lang r' hr' with h | h
    · exact ih r' h
    · obtain ⟨hst, hct, hap⟩ := recordOf_fields s.nextAnalysisId orch roomId desc lang
      rw [h]
      refine ⟨fun hc => absurd hct hc, ?_⟩
      rw [hap, hst]
      simp
  | applyStep s analysisId sel now _ ih =>
    intro r' hr'
    rcases applyWf_mem s analysisId sel now r' hr' with h | ⟨r, ids, _, _, _, heq⟩
    · exact ih r' h
    · subst heq
      exact ⟨fun _ => rfl, by simp⟩
  | rejectStep s analysisId _ ih =>
    intro r' hr'
    rcases rejectWf_mem s analysisId r' hr' with h | ⟨q, hq, _, hqp, heq⟩
    · exact ih r' h
    · subst heq
      obtain ⟨ih1, ih2⟩ := ih q hq
      have hqc : q.createdTaskIds = [] := by
        by_contra hne
        have hcontra := ih1 hne
        rw [hqp] at hcontra
        exact Status.noConfusion hcontra
      have hqa : q.appliedAt = none := by
        by_contra hne
        have hcontra := ih2.mp hne
        rw [hqp] at hcontra
        exact Status.noConfusion hcontra
      constructor
      · intro hc
        exact absurd hqc hc
      · show q.appliedAt ≠ none ↔ Status.rejected = Status.approved
        rw [hqa]
        simp

/-- C3 (amended): on every reachable record, `created_task_ids` non-empty
implies status approved, and `applied_at` is set iff status is approved;
status moves only along pending → approved (via apply) or pending →
rejected, with approved and rejected terminal — every record after an
operation either was already in the store unchanged, is a freshly created
pending record, or is a previously pending record turned approved
(by apply) or rejected (by reject).  The converse "approved implies
non-empty created_task_ids" of the original claim is dropped: it fails
when apply is invoked with an empty selection (see the counterexample). -/
theorem c3_amended_status_machine :
    (∀ s, Reachable s → ∀ r ∈ s.records,
      (r.createdTaskIds ≠ [] → r.status = Status.approved) ∧
      (r.appliedAt ≠ none ↔ r.status = Status.approved)) ∧
    (∀ (s : WfState) orch roomId desc lang r',
      r' ∈ (createWf s orch roomId desc lang).2.records →
      r' ∈ s.records ∨ r'.status = Status.pending) ∧
    (∀ (s : WfState) analysisId sel now r',
      r' ∈ (applyWf s analysisId sel now).2.records →
      r' ∈ s.records ∨ ∃ r ∈ s.records, r.id = r'.id ∧
        r.status = Status.pending ∧ r'.status = Status.approved) ∧
    (∀ (s : WfState) analysisId r',
      r' ∈ (rejectWf s analysisId).records →
      r' ∈ s.records ∨ ∃ r ∈ s.records, r.id = r'.id ∧
        r.status = Status.pending ∧ r'.status = Status.rejected) := by
  refine ⟨wf_invariant, ?_, ?_, ?_⟩
  · intro s orch roomId desc lang r' h
    rcases createWf_mem s orch roomId desc lang r' h with h | h
    · exact Or.inl h
    · rw [h]
      exact Or.inr (recordOf_fields s.nextAnalysisId orch roomId desc lang).1
  · intro s analysisId sel now r' h
    rcases applyWf_mem s analysisId sel now r' h with h | ⟨r, ids, hr, hid, hp, heq⟩
    · exact Or.inl h
    · refine Or.inr ⟨r, hr, hid, hp, ?_⟩
      rw [heq]
  · intro s analysisId r' h
    rcases rejectWf_mem s analysisId r' h with h | ⟨q, hq, hid, hqp, heq⟩
    · exact Or.inl h
    · refine Or.inr ⟨q, hq, hid, hqp, ?_⟩
      rw [heq]

/-- Witness for C3 (amended): the invariant instantiated on the pending
record reached by one failed `create`. -/
theorem c3_amended_status_machine_witness :
    (cexPendingRecord.createdTaskIds ≠ [] →
      cexPendingRecord.status = Status.approved) ∧
    (cexPendingRecord.appliedAt ≠ none ↔
      cexPendingRecord.status = Status.approved) :=
  c3_amended_status_machine.1 cexState1
    (Reachable.createStep initialState (OrchOutcome.failed FailReason.parseError)
      1 cexDesc enLang Reachable.init)
    cexPendingRecord (by decide)

/-- Counterexample to C3 as stated: the state reached by a failed `create`
followed by `apply` with the explicit empty selection holds a record with
status approved and `created_task_ids = []`, refuting "created_task_ids is
non-empty if and only if status = approved" for reachable records. -/
theorem c3_status_invariant_counterexample :
    Reachable cexState2 ∧ cexApprovedRecord ∈ cexState2.records ∧
    cexApprovedRecord.status = Status.approved ∧
    cexApprovedRecord.createdTaskIds = [] ∧
    ¬ (∀ s, Reachable s → ∀ r ∈ s.records,
        (r.createdTaskIds ≠ [] ↔ r.status = Status.approved) ∧
        (r.appliedAt ≠ none ↔ r.status = Status.approved)) := by
  have h1 : Reachable cexState1 :=
    Reachable.createStep initialState (OrchOutcome.failed FailReason.parseError)
      1 cexDesc enLang Reachable.init
  have h2 : Reachable cexState2 :=
    Reachable.applyStep cexState1 0 (some []) 7 h1
  have hmem : cexApprovedRecord ∈ cexState2.records := by decide
  refine ⟨h2, hmem, rfl, rfl, fun hall => ?_⟩
  exact (hall cexState2 h2 cexApprovedRecord hmem).1.mpr rfl rfl

/-- A strictly better (smaller) rank in one channel gives a channel
contribution at least as large. -/
theorem channelScore_mono (k : Nat) (ranked : List Nat) (d1 d2 i1 i2 : Nat)
    (h1 : rankOf ranked d1 = some i1) (h2 : rankOf ranked d2 = some i2)
    (hlt : i1 < i2) :
    channelScore k ranked d2 ≤ channelScore k ranked d1 := by
  simp only [channelScore, h1, h2]
  have hp1 : (0 : ℚ) < (k : ℚ) + ((i1 + 1 : Nat) : ℚ) := by
    have hk : (0 : ℚ) ≤ (k : ℚ) := Nat.cast_nonneg k
    have hi : (0 : ℚ) < ((i1 + 1 : Nat) : ℚ) := by exact_mod_cast Nat.succ_pos i1
    linarith
  apply one_div_le_one_div_of_le hp1
  have hle : ((i1 + 1 : Nat) : ℚ) ≤ ((i2 + 1 : Nat) : ℚ) :=
    (Nat.cast_le (α := ℚ)).mpr (by omega)
  linarith

/-- C4: Reciprocal Rank Fusion of the two channels.  The fused score is
monotone: a document ranked strictly better than another in both channels
has a fused score at least as large (for nonnegative channel weights); a
document absent from a channel list receives contribution 0 from it; the
hybrid result is sorted by fused score descending with ties broken by
document id ascending; it has exactly `min top_k candidates` entries; every
candidate left out compares no better than every returned document under
that order; and the RRF constant defaults to 60. -/
theorem c4_rrf_fusion (k : Nat) (dw sw : ℚ) (dense sparse : List Nat)
    (topK : Nat) :
    (∀ d1 d2 i1 i2 j1 j2, 0 ≤ dw → 0 ≤ sw →
      rankOf dense d1 = some i1 → rankOf dense d2 = some i2 → i1 < i2 →
      rankOf sparse d1 = some j1 → rankOf sparse d2 = some j2 → j1 < j2 →
      fusedScore k dw sw dense sparse d2 ≤ fusedScore k dw sw dense sparse d1) ∧
    (∀ d, rankOf dense d = none → channelScore k dense d = 0) ∧
    List.Sorted (hybridPrec k dw sw dense sparse)
      (hybridSearch k dw sw dense sparse topK) ∧
    (hybridSearch k dw sw dense sparse topK).length =
      min topK (hybridCandidates dense sparse).length ∧
    (∀ d ∈ hybridCandidates dense sparse,
      d ∉ hybridSearch k dw sw dense sparse topK →
      ∀ d' ∈ hybridSearch k dw sw dense sparse topK,
        hybridPrec k dw sw dense sparse d' d) ∧
    rrfK = 60 := by
  have hsorted := List.sorted_insertionSort (hybridPrec k dw sw dense sparse)
    (hybridCandidates dense sparse)
  refine ⟨?_, ?_, ?_, ?_, ?_, rfl⟩
  · intro d1 d2 i1 i2 j1 j2 hdw hsw h1 h2 hi h3 h4 hj
    have hc1 := channelScore_mono k dense d1 d2 i1 i2 h1 h2 hi
    have hc2 := channelScore_mono k sparse d1 d2 j1 j2 h3 h4 hj
    unfold fusedScore
    exact add_le_add (mul_le_mul_of_nonneg_left hc1 hdw)
      (mul_le_mul_of_nonneg_left hc2 hsw)
  · intro d h
    simp only [channelScore, h]
  · exact List.Pairwise.sublist (List.take_sublist topK _) hsorted
  · rw [hybridSearch, List.length_take,
      (List.perm_insertionSort (hybridPrec k dw sw dense sparse)
        (hybridCandidates dense sparse)).length_eq]
  · intro d hd hnotin d' hd'
    have hdL : d ∈ List.insertionSort (hybridPrec k dw sw dense sparse)
        (hybridCandidates dense sparse) :=
      (List.perm_insertionSort _ _).mem_iff.mpr hd
    have hsplit := (List.take_append_drop topK
      (List.insertionSort (hybridPrec k dw sw dense sparse)
        (hybridCandidates dense sparse))).symm
    have hddrop : d ∈ (List.insertionSort (hybridPrec k dw sw dense sparse)
        (hybridCandidates dense sparse)).drop topK := by
      rcases List.mem_append.mp (hsplit ▸ hdL) with h | h
      · exact absurd h hnotin
      · exact h
    have hpair := List.pairwise_append.mp (hsplit ▸ hsorted)
    exact hpair.2.2 d' hd' d hddrop

/-- Witness for C4: with `k = 60`, unit weights and channel lists `[1, 2]`
in both channels, document 1 (ranked first in both) scores at least as
high as document 2. -/
theorem c4_rrf_fusion_witness :
    fusedScore 60 1 1 [1, 2] [1, 2] 2 ≤ fusedScore 60 1 1 [1, 2] [1, 2] 1 :=
  (c4_rrf_fusion 60 1 1 [1, 2] [1, 2] 2).1 1 2 0 1 0 1
    zero_le_one zero_le_one rfl rfl Nat.zero_lt_one rfl rfl Nat.zero_lt_one

/-- C5: `find_employees_by_skills` returns exactly the scored candidate
pool (as a permutation, so each candidate carries the match score given by
the matched-fraction formula), sorted by match score descending with ties
broken by username ascending; every match score lies in `[0, 100]`; and an
empty requested skill set gives every candidate match score 0. -/
theorem c5_find_employees_by_skills (requested : List String)
    (pool : List Candidate) :
    List.Perm (findEmployeesBySkills requested pool)
      (pool.map (scoreCandidate requested)) ∧
    List.Sorted skillPrec (findEmployeesBySkills requested pool) ∧
    (∀ m ∈ findEmployeesBySkills requested pool,
      0 ≤ m.matchScore ∧ m.matchScore ≤ 100) ∧
    (requested = [] → ∀ m ∈ findEmployeesBySkills requested pool,
      m.matchScore = 0) := by
  refine ⟨List.perm_insertionSort skillPrec _,
    List.sorted_insertionSort skillPrec _, ?_, ?_⟩
  · intro m hm
    rcases List.mem_map.mp ((List.perm_insertionSort skillPrec _).mem_iff.mp hm)
      with ⟨c, _, rfl⟩
    show 0 ≤ matchScoreFor requested c ∧ matchScoreFor requested c ≤ 100
    unfold matchScoreFor
    by_cases he : requested.isEmpty
    · rw [if_pos he]
      norm_num
    · rw [if_neg he]
      have hlenpos : (0 : ℚ) < (requested.length : ℚ) := by
        have : requested ≠ [] := by
          intro hcon
          rw [hcon] at he
          exact he rfl
        exact_mod_cast List.length_pos.mpr this
      constructor
      · apply div_nonneg _ (le_of_lt hlenpos)
        positivity
      · rw [div_le_iff₀ hlenpos]
        have hle : ((matchedSkillsFor requested c).length : ℚ) ≤
            (requested.length : ℚ) :=
          (Nat.cast_le (α := ℚ)).mpr (List.length_filter_le _ _)
        linarith
  · intro hreq m hm
    rcases List.mem_map.mp ((List.perm_insertionSort skillPrec _).mem_iff.mp hm)
      with ⟨c, _, rfl⟩
    show matchScoreFor requested c = 0
    rw [hreq]
    rfl

/-- Witness for C5: with an empty requested skill set, the single sample
candidate is returned with match score 0. -/
theorem c5_find_employees_by_skills_witness :
    (scoreCandidate [] sampleCandidate).matchScore = 0 :=
  (c5_find_employees_by_skills [] [sampleCandidate]).2.2.2 rfl
    (scoreCandidate [] sampleCandidate) (by decide)

end Fission
